import Mathlib

/-!
Shallow embedding of the memory-tracking core of `cypress-memory-tracker`
(`dist/cypress-memory-tracker.js`): the sample store, the ingest API
(`recordSpecMemory`, `recordTestMemory`, `recordMemoryBatch`), the
aggregator (`calculateStats`, `aggregateSpecStats`, `findMaxMemoryTest`)
and the row-level content of the two reports
(`generateSpecReport`, `generateTestReport`).

Modelling conventions:
* JS numbers are modelled by `Nat` (byte counts, timestamps) and `ℚ`
  (the statistics, which divide and round); all byte values in play are
  far below 2^53 so rational arithmetic agrees with the double arithmetic
  of the source on the operations used.
* JS objects used as string-keyed maps (`data.specs`, `data.tests`,
  `specs[s].tests`) are modelled as insertion-ordered association lists
  `List (String × _)`: property update keeps the key position, a new
  property is appended, which is exactly ECMAScript enumeration order for
  string keys.
* A possibly-missing / `null` / `undefined` JS field is an `Option`.
* Each call of `Date.now()` / `new Date().toISOString()` in the source is
  one explicit parameter of the embedded operation (the clock is an input).
* File I/O is modelled by `Tracker.store : Option RunData` (the persisted
  snapshot, `none` = absent file) together with load/save counters in the
  result of each operation.
-/

/-- One memory reading, as pushed by the collaborator and as stored:
`{ timestamp, usedJSHeapSize, totalJSHeapSize, jsHeapSizeLimit }`.
Every field may be absent (`none`). -/
structure Sample where
  timestamp : Option Nat
  usedJSHeapSize : Option Nat
  totalJSHeapSize : Option Nat
  jsHeapSizeLimit : Option Nat
deriving Repr, DecidableEq

/-- The nested per-test record inside a spec record:
`data.specs[specName].tests[testTitle] = { samples: [] }`. -/
structure TestEntry where
  samples : List Sample
deriving Repr, DecidableEq

/-- `data.specs[specName]`: direct samples, nested per-test samples, and the
creation timestamp (present only when created by `recordSpecMemory`). -/
structure SpecRecord where
  samples : List Sample
  tests : List (String × TestEntry)
  startTime : Option String
deriving Repr, DecidableEq

/-- `data.tests["specName::testTitle"]`: the flat per-test record.
`startTime` is present only when created by `recordTestMemory`
(the batch path creates the record without it). -/
structure TestRecord where
  specPath : String
  testTitle : String
  samples : List Sample
  startTime : Option String
deriving Repr, DecidableEq

/-- The persisted snapshot (`runStartTime` and `config` are carried along
by the source but never read by the operations modelled here). -/
structure RunData where
  specs : List (String × SpecRecord)
  tests : List (String × TestRecord)
deriving Repr, DecidableEq

/-- JS property assignment `obj[k] = v` on an insertion-ordered object:
an existing key keeps its position, a new key is appended at the end. -/
def setKey {β : Type} (k : String) (v : β) : List (String × β) → List (String × β)
  | [] => [(k, v)]
  | (k1, v1) :: rest => if k1 = k then (k, v) :: rest else (k1, v1) :: setKey k v rest

/-- The statistics record returned by `calculateStats`. -/
structure Stats where
  min : ℚ
  max : ℚ
  avg : ℚ
  count : Nat
deriving Repr, DecidableEq

/-- `Math.round` on a rational: round half toward positive infinity,
`⌊x + 1/2⌋` (`Rat.floor` is the floor on `ℚ` by `Rat.le_floor`). -/
def jsRound (x : ℚ) : ℤ := (x + 1 / 2).floor

/-- `Math.round((v / 1024 / 1024) * 100) / 100`: bytes to mebibytes,
rounded to two decimal places. -/
def round2MiB (v : ℚ) : ℚ := (jsRound (v / 1024 / 1024 * 100) : ℚ) / 100

/-- `s.usedJSHeapSize || 0`: a missing, `null` or `0` field yields `0`. -/
def usedOrZero (s : Sample) : Nat := (s.usedJSHeapSize).getD 0

/-- `Math.min(...values)` over a nonempty list (the `[]` case is unreachable
in the source because of the emptiness guard; `Nat` forces a default). -/
def listMin : List Nat → Nat
  | [] => 0
  | v :: vs => vs.foldl Nat.min v

/-- `Math.max(...values)` over a nonempty list (same remark). -/
def listMax : List Nat → Nat
  | [] => 0
  | v :: vs => vs.foldl Nat.max v

/-- `calculateStats(samples)`: `none` models a `null`/`undefined` argument
(the `!samples` guard); otherwise map to `usedJSHeapSize || 0`, take
min / max / mean and convert each to rounded mebibytes. -/
def calculateStats : Option (List Sample) → Stats
  | none => { min := 0, max := 0, avg := 0, count := 0 }
  | some [] => { min := 0, max := 0, avg := 0, count := 0 }
  | some (s :: ss) =>
    let values := (s :: ss).map usedOrZero
    let mn := listMin values
    let mx := listMax values
    let avg : ℚ := ((values.foldl (fun sum v => sum + v) 0 : Nat) : ℚ) / (values.length : ℚ)
    { min := round2MiB (mn : ℚ)
      max := round2MiB (mx : ℚ)
      avg := round2MiB avg
      count := values.length }

/-- `memoryData.timestamp || Date.now()`: a missing or `0` (falsy) timestamp
is replaced by the clock value passed in for that `Date.now()` call. -/
def tsOrNow (ts : Option Nat) (now : Nat) : Nat :=
  match ts with
  | some t => if t = 0 then now else t
  | none => now

/-- The sample object literal pushed by `recordSpecMemory` / `recordTestMemory`:
`{ timestamp: memoryData.timestamp || Date.now(), usedJSHeapSize, ... }`. -/
def mkPushedSample (m : Sample) (now : Nat) : Sample :=
  { timestamp := some (tsOrNow m.timestamp now)
    usedJSHeapSize := m.usedJSHeapSize
    totalJSHeapSize := m.totalJSHeapSize
    jsHeapSizeLimit := m.jsHeapSizeLimit }

/-- The key `specName + "::" + testTitle` of `data.tests`. -/
def testKeyOf (specName testTitle : String) : String :=
  specName ++ "::" ++ testTitle

/-- The pure state change of `recordSpecMemory` on a loaded snapshot:
ensure `data.specs[specName]` exists (created with a `startTime`), push the
rebuilt sample onto its direct `samples`. `now` is the `Date.now()` of the
sample push, `iso` the `new Date().toISOString()` of the creation. -/
def specMerge (d : RunData) (specName : String) (m : Sample) (now : Nat)
    (iso : String) : RunData :=
  let sr := match d.specs.lookup specName with
    | some sr => sr
    | none => { samples := [], tests := [], startTime := some iso }
  let sr := { sr with samples := sr.samples ++ [mkPushedSample m now] }
  { d with specs := setKey specName sr d.specs }

/-- The pure state change of `recordTestMemory` on a loaded snapshot: ensure
`data.tests[specName::testTitle]` exists (created with `startTime`), push a
rebuilt sample there; then ensure `data.specs[specName]` and its nested
`tests[testTitle]` exist (both created without `startTime`), and push a
second rebuilt sample there. The source calls `Date.now()` separately for
each of the two pushes: `now1` and `now2` are those two clock readings. -/
def testMerge (d : RunData) (specName testTitle : String) (m : Sample)
    (now1 now2 : Nat) (iso : String) : RunData :=
  let testKey := testKeyOf specName testTitle
  let tr := match d.tests.lookup testKey with
    | some tr => tr
    | none => { specPath := specName, testTitle := testTitle, samples := [],
                startTime := some iso }
  let tr := { tr with samples := tr.samples ++ [mkPushedSample m now1] }
  let d := { d with tests := setKey testKey tr d.tests }
  let sr := match d.specs.lookup specName with
    | some sr => sr
    | none => { samples := [], tests := [], startTime := none }
  let te := match sr.tests.lookup testTitle with
    | some te => te
    | none => { samples := [] }
  let te := { te with samples := te.samples ++ [mkPushedSample m now2] }
  let sr := { sr with tests := setKey testTitle te sr.tests }
  { d with specs := setKey specName sr d.specs }

/-- One item of a `recordMemoryBatch` batch: `{ specName, testTitle, memory }`. -/
structure BatchItem where
  specName : String
  testTitle : String
  memory : Sample
deriving Repr, DecidableEq

/-- The per-item state change of `recordMemoryBatch`: the same dual write as
`recordTestMemory`, except that the raw `memory` object is pushed verbatim
(no timestamp defaulting) and a newly created `data.tests` record carries no
`startTime`. -/
def applyBatchItem (d : RunData) (it : BatchItem) : RunData :=
  let testKey := testKeyOf it.specName it.testTitle
  let tr := match d.tests.lookup testKey with
    | some tr => tr
    | none => { specPath := it.specName, testTitle := it.testTitle,
                samples := [], startTime := none }
  let tr := { tr with samples := tr.samples ++ [it.memory] }
  let d := { d with tests := setKey testKey tr d.tests }
  let sr := match d.specs.lookup it.specName with
    | some sr => sr
    | none => { samples := [], tests := [], startTime := none }
  let te := match sr.tests.lookup it.testTitle with
    | some te => te
    | none => { samples := [] }
  let te := { te with samples := te.samples ++ [it.memory] }
  let sr := { sr with tests := setKey it.testTitle te sr.tests }
  { d with specs := setKey it.specName sr d.specs }

/-- The tracker as seen by one ingest call: the `isEnabled` flag and the
persisted snapshot (`none` = no data file). -/
structure Tracker where
  isEnabled : Bool
  store : Option RunData
deriving Repr, DecidableEq

/-- Result of one ingest call: the persisted snapshot afterwards, and how
many `loadData` / `saveData` calls the operation performed. -/
structure OpResult where
  store : Option RunData
  loads : Nat
  saves : Nat
deriving Repr, DecidableEq

/-- `recordSpecMemory(specName, memoryData)`: no-op when disabled; loads,
returns if no data, merges and saves otherwise. -/
def recordSpecMemory (t : Tracker) (specName : String) (m : Sample)
    (now : Nat) (iso : String) : OpResult :=
  if !t.isEnabled then { store := t.store, loads := 0, saves := 0 }
  else match t.store with
    | none => { store := none, loads := 1, saves := 0 }
    | some d =>
      { store := some (specMerge d specName m now iso), loads := 1, saves := 1 }

/-- `recordTestMemory(specName, testTitle, memoryData)`: no-op when disabled;
loads, returns if no data, dual-writes and saves otherwise. -/
def recordTestMemory (t : Tracker) (specName testTitle : String) (m : Sample)
    (now1 now2 : Nat) (iso : String) : OpResult :=
  if !t.isEnabled then { store := t.store, loads := 0, saves := 0 }
  else match t.store with
    | none => { store := none, loads := 1, saves := 0 }
    | some d =>
      { store := some (testMerge d specName testTitle m now1 now2 iso),
        loads := 1, saves := 1 }

/-- The argument of `recordMemoryBatch`; `batch = none` models a `batch`
field that is not an array (`!Array.isArray(batchData.batch)`). -/
structure BatchData where
  batch : Option (List BatchItem)
deriving Repr, DecidableEq

/-- `recordMemoryBatch(batchData)`: returns before loading when disabled or
the batch is not an array; otherwise loads once, applies every item, and
saves once iff the `modified` flag was set (i.e. iff the batch is nonempty). -/
def recordMemoryBatch (t : Tracker) (bd : BatchData) : OpResult :=
  if !t.isEnabled then { store := t.store, loads := 0, saves := 0 }
  else match bd.batch with
    | none => { store := t.store, loads := 0, saves := 0 }
    | some items =>
      match t.store with
      | none => { store := none, loads := 1, saves := 0 }
      | some d =>
        let step := items.foldl
          (fun (acc : RunData × Bool) it => (applyBatchItem acc.1 it, true))
          (d, false)
        if step.2 then { store := some step.1, loads := 1, saves := 1 }
        else { store := some step.1, loads := 1, saves := 0 }

/-- `aggregateSpecStats(specData)`: push every nested test's samples, then
the spec's direct samples, into one list and take `calculateStats` of it
(the `Array.isArray(specData.samples)` guard always holds in the model,
where `samples` is a list by construction). -/
def aggregateSpecStats (sd : SpecRecord) : Stats :=
  let all := sd.tests.foldl (fun acc p => acc ++ p.2.samples) ([] : List Sample)
  let all := all ++ sd.samples
  calculateStats (some all)

/-- The `{ testName, memory }` record returned by `findMaxMemoryTest`. -/
structure PeakResult where
  testName : String
  memory : ℚ
deriving Repr, DecidableEq

/-- The per-test maximum `calculateStats(td.samples).max` that
`findMaxMemoryTest` compares. -/
def testEntryMax (p : String × TestEntry) : ℚ := (calculateStats (some p.2.samples)).max

/-- The body of `findMaxMemoryTest`'s `forEach` callback:
`if (stats.max > max) { max = stats.max; name = t; }`. -/
def peakStep (acc : PeakResult) (p : String × TestEntry) : PeakResult :=
  if acc.memory < testEntryMax p then { testName := p.1, memory := testEntryMax p }
  else acc

/-- `findMaxMemoryTest(specData)`: scan the nested tests in insertion order,
keeping the first one whose `calculateStats(...).max` strictly exceeds the
running maximum, which starts at `0` with name `""`. -/
def findMaxMemoryTest (sd : SpecRecord) : PeakResult :=
  sd.tests.foldl peakStep { testName := "", memory := 0 }

/-- The sort key of a test report row: `calculateStats(td.samples).max`. -/
def testRowKey (tr : TestRecord) : ℚ := (calculateStats (some tr.samples)).max

/-- The sort key of a spec report row: `aggregateSpecStats(data).max`. -/
def specRowKey (p : String × SpecRecord) : ℚ := (aggregateSpecStats p.2).max

/-- `ECMAScript `Array.prototype.sort` with comparator
`(a, b) => key(b) - key(a)` is a stable descending sort by `key`; a stable
sort is modelled by Mathlib's stable `insertionSort` with the total,
transitive relation `key b ≤ key a`. -/
def sortByKeyDesc {α : Type} (key : α → ℚ) (l : List α) : List α :=
  l.insertionSort (fun a b => key b ≤ key a)

/-- The rows printed by `generateTestReport`:
`Object.values(tests).sort(byMaxDesc).slice(0, 50)`. -/
def generateTestReportRows (tests : List (String × TestRecord)) :
    List TestRecord :=
  (sortByKeyDesc testRowKey (tests.map (fun p => p.2))).take 50

/-- The trailing summary line of `generateTestReport`: printed exactly when
`Object.keys(tests).length > 50`, stating `length - 50` omitted rows. -/
def generateTestReportOmitted (tests : List (String × TestRecord)) :
    Option Nat :=
  if tests.length > 50 then some (tests.length - 50) else none

/-- The rows printed by `generateSpecReport`:
`Object.entries(specs).sort(byAggregateMaxDesc)` (no cap). -/
def generateSpecReportRows (specs : List (String × SpecRecord)) :
    List (String × SpecRecord) :=
  sortByKeyDesc specRowKey specs


theorem lookup_setKey_self {β : Type} (k : String) (v : β) :
    ∀ l : List (String × β), (setKey k v l).lookup k = some v := by
  intro l
  induction l with
  | nil => simp [setKey]
  | cons p rest ih =>
    obtain ⟨k1, v1⟩ := p
    by_cases h : k1 = k
    · simp [setKey, h]
    · simp [setKey, h, List.lookup, beq_false_of_ne (Ne.symm h), ih]

theorem lookup_setKey_ne {β : Type} (k k1 : String) (v : β) (hne : k1 ≠ k) :
    ∀ l : List (String × β), (setKey k v l).lookup k1 = l.lookup k1 := by
  intro l
  induction l with
  | nil => simp [setKey, List.lookup, beq_false_of_ne hne]
  | cons p rest ih =>
    obtain ⟨k2, v2⟩ := p
    by_cases h : k2 = k
    · subst h
      simp [setKey, List.lookup, beq_false_of_ne hne]
    · simp [setKey, h, List.lookup, ih]

theorem lookup_setKey_isSome {β : Type} (k k1 : String) (v : β)
    (l : List (String × β)) (h : (l.lookup k1).isSome) :
    ((setKey k v l).lookup k1).isSome := by
  by_cases hk : k1 = k
  · subst hk
    simp [lookup_setKey_self]
  · rw [lookup_setKey_ne k k1 v hk]
    exact h

theorem foldl_add_eq_sum : ∀ (l : List Nat) (a : Nat),
    l.foldl (fun sum v => sum + v) a = a + l.sum := by
  intro l
  induction l with
  | nil => simp
  | cons v vs ih => intro a; simp [ih, List.sum_cons, Nat.add_assoc]

theorem foldl_min_le_init : ∀ (vs : List Nat) (v : Nat), vs.foldl Nat.min v ≤ v := by
  intro vs
  induction vs with
  | nil => simp
  | cons w ws ih =>
    intro v
    exact le_trans (ih (Nat.min v w)) (Nat.min_le_left _ _)

theorem foldl_min_le_mem : ∀ (vs : List Nat) (v : Nat), ∀ w ∈ vs, vs.foldl Nat.min v ≤ w := by
  intro vs
  induction vs with
  | nil => intro v w hw; cases hw
  | cons u us ih =>
    intro v w hw
    rcases List.mem_cons.mp hw with h | h
    · subst h
      exact le_trans (foldl_min_le_init us (Nat.min v w)) (Nat.min_le_right _ _)
    · exact ih (Nat.min v u) w h

theorem foldl_min_mem : ∀ (vs : List Nat) (v : Nat),
    vs.foldl Nat.min v = v ∨ vs.foldl Nat.min v ∈ vs := by
  intro vs
  induction vs with
  | nil => intro v; left; rfl
  | cons w ws ih =>
    intro v
    rcases ih (Nat.min v w) with h | h
    · rcases Nat.le_total v w with hvw | hwv
      · left
        have hm : Nat.min v w = v := by simp only [Nat.min]; exact min_eq_left hvw
        rw [List.foldl_cons, h, hm]
      · right
        have hm : Nat.min v w = w := by simp only [Nat.min]; exact min_eq_right hwv
        rw [List.foldl_cons, h, hm]
        exact List.mem_cons_self _ _
    · right
      exact List.mem_cons_of_mem _ h

theorem foldl_max_le_init : ∀ (vs : List Nat) (v : Nat), v ≤ vs.foldl Nat.max v := by
  intro vs
  induction vs with
  | nil => simp
  | cons w ws ih =>
    intro v
    exact le_trans (Nat.le_max_left _ _) (ih (Nat.max v w))

theorem foldl_max_ge_mem : ∀ (vs : List Nat) (v : Nat), ∀ w ∈ vs, w ≤ vs.foldl Nat.max v := by
  intro vs
  induction vs with
  | nil => intro v w hw; cases hw
  | cons u us ih =>
    intro v w hw
    rcases List.mem_cons.mp hw with h | h
    · subst h
      exact le_trans (Nat.le_max_right _ _) (foldl_max_le_init us (Nat.max v w))
    · exact ih (Nat.max v u) w h

theorem foldl_max_mem : ∀ (vs : List Nat) (v : Nat),
    vs.foldl Nat.max v = v ∨ vs.foldl Nat.max v ∈ vs := by
  intro vs
  induction vs with
  | nil => intro v; left; rfl
  | cons w ws ih =>
    intro v
    rcases ih (Nat.max v w) with h | h
    · rcases Nat.le_total v w with hvw | hwv
      · right
        have hm : Nat.max v w = w := by simp only [Nat.max]; exact max_eq_right hvw
        rw [List.foldl_cons, h, hm]
        exact List.mem_cons_self _ _
      · left
        have hm : Nat.max v w = v := by simp only [Nat.max]; exact max_eq_left hwv
        rw [List.foldl_cons, h, hm]
    · right
      exact List.mem_cons_of_mem _ h

theorem listMin_mem (v : Nat) (vs : List Nat) : listMin (v :: vs) ∈ v :: vs := by
  rcases foldl_min_mem vs v with h | h
  · rw [listMin, h]; exact List.mem_cons_self _ _
  · exact List.mem_cons_of_mem _ h

theorem listMin_le (v : Nat) (vs : List Nat) : ∀ w ∈ v :: vs, listMin (v :: vs) ≤ w := by
  intro w hw
  rcases List.mem_cons.mp hw with h | h
  · subst h; exact foldl_min_le_init vs w
  · exact foldl_min_le_mem vs v w h

theorem listMax_mem (v : Nat) (vs : List Nat) : listMax (v :: vs) ∈ v :: vs := by
  rcases foldl_max_mem vs v with h | h
  · rw [listMax, h]; exact List.mem_cons_self _ _
  · exact List.mem_cons_of_mem _ h

theorem listMax_ge (v : Nat) (vs : List Nat) : ∀ w ∈ v :: vs, w ≤ listMax (v :: vs) := by
  intro w hw
  rcases List.mem_cons.mp hw with h | h
  · subst h; exact foldl_max_le_init vs w
  · exact foldl_max_ge_mem vs v w h

theorem filterMap_used_of_isSome : ∀ l : List Sample,
    (∀ s ∈ l, (s.usedJSHeapSize).isSome) →
    l.filterMap Sample.usedJSHeapSize = l.map usedOrZero := by
  intro l
  induction l with
  | nil => intro _; rfl
  | cons s ss ih =>
    intro h
    obtain ⟨v, hv⟩ := Option.isSome_iff_exists.mp (h s (List.mem_cons_self _ _))
    have hrest : ∀ x ∈ ss, (x.usedJSHeapSize).isSome :=
      fun x hx => h x (List.mem_cons_of_mem _ hx)
    simp [List.filterMap_cons, hv, usedOrZero, ih hrest]

theorem round2MiB_zero : round2MiB 0 = 0 := by with_unfolding_all decide

theorem calculateStats_cons (s : Sample) (ss : List Sample) :
    calculateStats (some (s :: ss)) =
      { min := round2MiB ((listMin ((s :: ss).map usedOrZero) : Nat) : ℚ)
        max := round2MiB ((listMax ((s :: ss).map usedOrZero) : Nat) : ℚ)
        avg := round2MiB ((((s :: ss).map usedOrZero).sum : ℚ) / (((s :: ss).length : Nat) : ℚ))
        count := (s :: ss).length } := by
  simp only [calculateStats]
  rw [foldl_add_eq_sum]
  simp [List.length_map]

/-- The three samples with `usedJSHeapSize` of exactly 1, 2 and 3 MiB used
by the worked example for `calculateStats`. -/
def mibSamples123 : List Sample :=
  [ { timestamp := some 1, usedJSHeapSize := some 1048576,
      totalJSHeapSize := none, jsHeapSizeLimit := none }
  , { timestamp := some 2, usedJSHeapSize := some 2097152,
      totalJSHeapSize := none, jsHeapSizeLimit := none }
  , { timestamp := some 3, usedJSHeapSize := some 3145728,
      totalJSHeapSize := none, jsHeapSizeLimit := none } ]

/-- C2: `calculateStats` returns `{min, max, avg, count}` where `min`, `max`
and `avg` are the minimum, maximum and arithmetic mean of the samples'
`usedJSHeapSize` fields, each converted bytes → mebibytes (`/1024/1024`) and
rounded to 2 decimal places, and `count` is the sequence length; the empty
or absent sequence yields all zeroes; for byte values
`[1048576, 2097152, 3145728]` it returns `{min:1, max:3, avg:2, count:3}`. -/
theorem C2_statsOf :
    (calculateStats none = { min := 0, max := 0, avg := 0, count := 0 }
      ∧ calculateStats (some []) = { min := 0, max := 0, avg := 0, count := 0 })
    ∧ (∀ samples : List Sample, samples ≠ [] →
        (∀ s ∈ samples, (s.usedJSHeapSize).isSome) →
        ∃ m M : Nat,
          m ∈ samples.filterMap Sample.usedJSHeapSize ∧
          M ∈ samples.filterMap Sample.usedJSHeapSize ∧
          (∀ v ∈ samples.filterMap Sample.usedJSHeapSize, m ≤ v ∧ v ≤ M) ∧
          calculateStats (some samples) =
            { min := round2MiB (m : ℚ)
              max := round2MiB (M : ℚ)
              avg := round2MiB
                (((samples.filterMap Sample.usedJSHeapSize).sum : ℚ)
                  / (samples.length : ℚ))
              count := samples.length })
    ∧ calculateStats (some mibSamples123)
        = { min := 1, max := 3, avg := 2, count := 3 } := by
  refine ⟨⟨rfl, rfl⟩, ?_, by with_unfolding_all decide⟩
  intro samples hne h
  match samples, hne with
  | s :: ss, _ =>
    have hfm : (s :: ss).filterMap Sample.usedJSHeapSize = (s :: ss).map usedOrZero :=
      filterMap_used_of_isSome _ h
    refine ⟨listMin ((s :: ss).map usedOrZero), listMax ((s :: ss).map usedOrZero),
      ?_, ?_, ?_, ?_⟩
    · rw [hfm]
      exact listMin_mem (usedOrZero s) (ss.map usedOrZero)
    · rw [hfm]
      exact listMax_mem (usedOrZero s) (ss.map usedOrZero)
    · intro v hv
      rw [hfm] at hv
      exact ⟨listMin_le (usedOrZero s) (ss.map usedOrZero) v hv,
        listMax_ge (usedOrZero s) (ss.map usedOrZero) v hv⟩
    · rw [calculateStats_cons, hfm]

/-- C10: in a nonempty sample sequence in which some sample's
`usedJSHeapSize` is missing, `null` or `0`, `calculateStats` substitutes `0`
bytes for that sample instead of skipping it: the returned `min` is `0`,
`count` is the full sequence length, and `avg` is the mean over the full
length with the zero included. -/
theorem C10_zeroSubstitution :
    ∀ samples : List Sample, samples ≠ [] →
    (∃ s ∈ samples, (s.usedJSHeapSize).getD 0 = 0) →
    (calculateStats (some samples)).min = 0
    ∧ (calculateStats (some samples)).count = samples.length
    ∧ (calculateStats (some samples)).avg
        = round2MiB (((samples.map usedOrZero).sum : ℚ) / (samples.length : ℚ)) := by
  intro samples hne hz
  match samples, hne with
  | s :: ss, _ =>
    obtain ⟨s0, hs0mem, hs0⟩ := hz
    have hmin0 : listMin ((s :: ss).map usedOrZero) = 0 := by
      have hm : usedOrZero s0 ∈ (s :: ss).map usedOrZero :=
        List.mem_map_of_mem usedOrZero hs0mem
      have hle := listMin_le (usedOrZero s) (ss.map usedOrZero) (usedOrZero s0) hm
      have h0 : usedOrZero s0 = 0 := hs0
      rw [h0] at hle
      rw [List.map_cons]
      exact Nat.le_zero.mp hle
    rw [calculateStats_cons]
    refine ⟨?_, rfl, rfl⟩
    rw [hmin0]
    simpa using round2MiB_zero

theorem foldl_append_flatten : ∀ (l : List (String × TestEntry)) (acc : List Sample),
    l.foldl (fun acc p => acc ++ p.2.samples) acc
      = acc ++ (l.map (fun p => p.2.samples)).flatten := by
  intro l
  induction l with
  | nil => intro acc; simp
  | cons p ps ih => intro acc; simp [ih, List.append_assoc]

/-- C3: `aggregateSpecStats` equals `calculateStats` of the concatenation of
every nested test's samples with the spec's own direct samples (a statistic
over the union of readings, not of per-test statistics); in particular a
spec with one test holding `[x]` and direct samples `[y]` aggregates to
`calculateStats [x, y]`. -/
theorem C3_aggregateSpec :
    (∀ sd : SpecRecord,
        aggregateSpecStats sd
          = calculateStats
              (some ((sd.tests.map (fun p => p.2.samples)).flatten ++ sd.samples)))
    ∧ ∀ x y : Sample, ∀ title : String,
        aggregateSpecStats
            { samples := [y], tests := [(title, { samples := [x] })],
              startTime := none }
          = calculateStats (some [x, y]) := by
  constructor
  · intro sd
    simp only [aggregateSpecStats]
    rw [foldl_append_flatten]
    simp
  · intro x y title
    rfl

/-- The sample sequence of the flat `data.tests["s::t"]` record. -/
def testSamples (d : RunData) (s t : String) : Option (List Sample) :=
  (d.tests.lookup (testKeyOf s t)).map (fun tr => tr.samples)

/-- The nested sample sequence `data.specs[s].tests[t].samples`. -/
def specNestedSamples (d : RunData) (s t : String) : Option (List Sample) :=
  (d.specs.lookup s).bind (fun sr => (sr.tests.lookup t).map (fun te => te.samples))

theorem testSamples_after_testMerge (d : RunData) (s t : String) (m : Sample)
    (n1 n2 : Nat) (iso : String) :
    testSamples (testMerge d s t m n1 n2 iso) s t
      = some ((testSamples d s t).getD [] ++ [mkPushedSample m n1]) := by
  cases hK : d.tests.lookup (testKeyOf s t) with
  | none => simp [testMerge, testSamples, hK, lookup_setKey_self]
  | some tr => simp [testMerge, testSamples, hK, lookup_setKey_self]

theorem specNestedSamples_after_testMerge (d : RunData) (s t : String) (m : Sample)
    (n1 n2 : Nat) (iso : String) :
    specNestedSamples (testMerge d s t m n1 n2 iso) s t
      = some ((specNestedSamples d s t).getD [] ++ [mkPushedSample m n2]) := by
  cases hS : d.specs.lookup s with
  | none =>
    simp [testMerge, specNestedSamples, hS, lookup_setKey_self]
  | some sr =>
    cases hT : sr.tests.lookup t with
    | none => simp [testMerge, specNestedSamples, hS, hT, lookup_setKey_self]
    | some te => simp [testMerge, specNestedSamples, hS, hT, lookup_setKey_self]

theorem testSamples_after_batchItem (d : RunData) (it : BatchItem) :
    testSamples (applyBatchItem d it) it.specName it.testTitle
      = some ((testSamples d it.specName it.testTitle).getD [] ++ [it.memory]) := by
  cases hK : d.tests.lookup (testKeyOf it.specName it.testTitle) with
  | none => simp [applyBatchItem, testSamples, hK, lookup_setKey_self]
  | some tr => simp [applyBatchItem, testSamples, hK, lookup_setKey_self]

theorem specNestedSamples_after_batchItem (d : RunData) (it : BatchItem) :
    specNestedSamples (applyBatchItem d it) it.specName it.testTitle
      = some ((specNestedSamples d it.specName it.testTitle).getD [] ++ [it.memory]) := by
  cases hS : d.specs.lookup it.specName with
  | none =>
    simp [applyBatchItem, specNestedSamples, hS, lookup_setKey_self]
  | some sr =>
    cases hT : sr.tests.lookup it.testTitle with
    | none => simp [applyBatchItem, specNestedSamples, hS, hT, lookup_setKey_self]
    | some te => simp [applyBatchItem, specNestedSamples, hS, hT, lookup_setKey_self]

theorem mkPushedSample_of_ts (m : Sample) (ts : Nat) (h : m.timestamp = some ts)
    (h0 : ts ≠ 0) : ∀ n : Nat, mkPushedSample m n = m := by
  intro n
  cases m with
  | mk mt mu mtot ml =>
    simp only [Sample.mk.injEq] at h
    subst h
    simp [mkPushedSample, tsOrNow, h0]

/-- C1 (counterexample): starting from an empty snapshot, one
`recordTestMemory` whose sample has no timestamp, during which the two
`Date.now()` calls return different values (1 and 2), leaves
`tests["a::b"].samples` and `specs["a"].tests["b"].samples` with samples
that differ in their defaulted timestamps — the sequences are not
value-equal after the operation. -/
theorem C1_counterexample :
    testSamples (testMerge { specs := [], tests := [] } "a" "b"
        { timestamp := none, usedJSHeapSize := some 1000,
          totalJSHeapSize := none, jsHeapSizeLimit := none } 1 2 "t0") "a" "b"
      ≠ specNestedSamples (testMerge { specs := [], tests := [] } "a" "b"
        { timestamp := none, usedJSHeapSize := some 1000,
          totalJSHeapSize := none, jsHeapSizeLimit := none } 1 2 "t0") "a" "b" := by
  decide

/-- C1 (amended): for `recordTestMemory`, provided the sample carries a
nonzero timestamp or the two `Date.now()` readings of the call coincide,
the sample appended to the flat TestRecord is value-equal to the one
appended to `specs[s].tests[t].samples`, and if the two sequences were
value-equal before the call they are value-equal after it, the new sample
appended at the end; for every `recordMemoryBatch` item the raw sample is
appended verbatim to both sequences, which therefore always stay
value-equal (without a sample timestamp, the two copies written by
`recordTestMemory` may differ in their defaulted timestamps, since
`Date.now()` is invoked separately for each copy). -/
theorem C1_dualWrite :
    (∀ (d : RunData) (s t : String) (m : Sample) (n1 n2 : Nat) (iso : String),
      ((∃ ts, m.timestamp = some ts ∧ ts ≠ 0) ∨ n1 = n2) →
      testSamples d s t = specNestedSamples d s t →
      (recordTestMemory { isEnabled := true, store := some d } s t m n1 n2 iso).store
          = some (testMerge d s t m n1 n2 iso)
        ∧ testSamples (testMerge d s t m n1 n2 iso) s t
            = specNestedSamples (testMerge d s t m n1 n2 iso) s t
        ∧ testSamples (testMerge d s t m n1 n2 iso) s t
            = some ((testSamples d s t).getD [] ++ [mkPushedSample m n1]))
    ∧ (∀ (d : RunData) (it : BatchItem),
      testSamples d it.specName it.testTitle
          = specNestedSamples d it.specName it.testTitle →
      testSamples (applyBatchItem d it) it.specName it.testTitle
          = specNestedSamples (applyBatchItem d it) it.specName it.testTitle
        ∧ testSamples (applyBatchItem d it) it.specName it.testTitle
            = some ((testSamples d it.specName it.testTitle).getD []
                      ++ [it.memory])) := by
  constructor
  · intro d s t m n1 n2 iso hts hpre
    have hpush : mkPushedSample m n1 = mkPushedSample m n2 := by
      rcases hts with ⟨ts, h1, h0⟩ | hnn
      · rw [mkPushedSample_of_ts m ts h1 h0 n1, mkPushedSample_of_ts m ts h1 h0 n2]
      · rw [hnn]
    refine ⟨rfl, ?_, testSamples_after_testMerge d s t m n1 n2 iso⟩
    rw [testSamples_after_testMerge, specNestedSamples_after_testMerge, hpre, hpush]
  · intro d it hpre
    refine ⟨?_, testSamples_after_batchItem d it⟩
    rw [testSamples_after_batchItem, specNestedSamples_after_batchItem, hpre]

/-- The empty snapshot used by concrete instances. -/
def emptyRun : RunData := { specs := [], tests := [] }

/-- A sample with a present, nonzero timestamp, used by concrete instances. -/
def witSample : Sample :=
  { timestamp := some 5, usedJSHeapSize := some 42,
    totalJSHeapSize := none, jsHeapSizeLimit := none }

/-- A batch item carrying `witSample`, used by concrete instances. -/
def witItem : BatchItem := { specName := "a", testTitle := "b", memory := witSample }

/-- Witness for C1: a concrete instance of both halves of `C1_dualWrite`. -/
theorem C1_dualWrite_witness :
    ((recordTestMemory { isEnabled := true, store := some emptyRun }
          "a" "b" witSample 7 9 "x").store
        = some (testMerge emptyRun "a" "b" witSample 7 9 "x")
      ∧ testSamples (testMerge emptyRun "a" "b" witSample 7 9 "x") "a" "b"
          = specNestedSamples (testMerge emptyRun "a" "b" witSample 7 9 "x") "a" "b"
      ∧ testSamples (testMerge emptyRun "a" "b" witSample 7 9 "x") "a" "b"
          = some ((testSamples emptyRun "a" "b").getD [] ++ [mkPushedSample witSample 7]))
    ∧ (testSamples (applyBatchItem emptyRun witItem) "a" "b"
        = specNestedSamples (applyBatchItem emptyRun witItem) "a" "b"
      ∧ testSamples (applyBatchItem emptyRun witItem) "a" "b"
          = some ((testSamples emptyRun "a" "b").getD [] ++ [witSample])) :=
  ⟨C1_dualWrite.1 emptyRun "a" "b" witSample 7 9 "x" (Or.inl ⟨5, rfl, by decide⟩) rfl,
   C1_dualWrite.2 emptyRun witItem rfl⟩

theorem peakStep_init_le (acc : PeakResult) (p : String × TestEntry) :
    acc.memory ≤ (peakStep acc p).memory := by
  rw [peakStep]
  split
  · next h => exact le_of_lt h
  · exact le_refl _

theorem peakStep_entry_le (acc : PeakResult) (p : String × TestEntry) :
    testEntryMax p ≤ (peakStep acc p).memory := by
  rw [peakStep]
  split
  · exact le_refl _
  · next h => exact le_of_not_lt h

theorem peakFold_init_le : ∀ (l : List (String × TestEntry)) (acc : PeakResult),
    acc.memory ≤ (l.foldl peakStep acc).memory := by
  intro l
  induction l with
  | nil => intro acc; exact le_refl _
  | cons p ps ih =>
    intro acc
    exact le_trans (peakStep_init_le acc p) (ih (peakStep acc p))

theorem peakFold_entry_le : ∀ (l : List (String × TestEntry)) (acc : PeakResult),
    ∀ p ∈ l, testEntryMax p ≤ (l.foldl peakStep acc).memory := by
  intro l
  induction l with
  | nil => intro acc p hp; cases hp
  | cons q qs ih =>
    intro acc p hp
    rcases List.mem_cons.mp hp with h | h
    · subst h
      exact le_trans (peakStep_entry_le acc p) (peakFold_init_le qs (peakStep acc p))
    · exact ih (peakStep acc q) p h

theorem peakFold_id_of_le : ∀ (l : List (String × TestEntry)) (acc : PeakResult),
    (∀ p ∈ l, testEntryMax p ≤ acc.memory) → l.foldl peakStep acc = acc := by
  intro l
  induction l with
  | nil => intro acc _; rfl
  | cons p ps ih =>
    intro acc h
    have hstep : peakStep acc p = acc := by
      rw [peakStep, if_neg (not_lt.mpr (h p (List.mem_cons_self _ _)))]
    rw [List.foldl_cons, hstep]
    exact ih acc (fun q hq => h q (List.mem_cons_of_mem _ hq))

theorem peakFold_stuck : ∀ (l : List (String × TestEntry)) (acc : PeakResult),
    (l.foldl peakStep acc).memory = acc.memory → l.foldl peakStep acc = acc := by
  intro l
  induction l with
  | nil => intro acc _; rfl
  | cons p ps ih =>
    intro acc h
    rw [List.foldl_cons] at h ⊢
    have hstep : peakStep acc p = acc := by
      rw [peakStep]
      split
      · next hlt =>
        exfalso
        have h1 : acc.memory < (peakStep acc p).memory := by
          rw [peakStep, if_pos hlt]
          exact hlt
        have h2 := peakFold_init_le ps (peakStep acc p)
        rw [h] at h2
        exact absurd (lt_of_lt_of_le h1 h2) (lt_irrefl _)
      · rfl
    rw [hstep] at h ⊢
    exact ih acc h

theorem peakFold_find : ∀ (l : List (String × TestEntry)) (acc : PeakResult),
    acc.memory < (l.foldl peakStep acc).memory →
    ∃ q, l.find? (fun p => decide (testEntryMax p = (l.foldl peakStep acc).memory))
          = some q
      ∧ q.1 = (l.foldl peakStep acc).testName := by
  intro l
  induction l with
  | nil => intro acc h; exact absurd h (lt_irrefl _)
  | cons p ps ih =>
    intro acc h
    rw [List.foldl_cons] at h ⊢
    by_cases hlt : acc.memory < testEntryMax p
    · have hstep : peakStep acc p = { testName := p.1, memory := testEntryMax p } := by
        rw [peakStep, if_pos hlt]
      by_cases hM : testEntryMax p = (ps.foldl peakStep (peakStep acc p)).memory
      · have hstuck : ps.foldl peakStep (peakStep acc p) = peakStep acc p := by
          apply peakFold_stuck
          have h1 : (peakStep acc p).memory = testEntryMax p := by rw [hstep]
          rw [h1, ← hM]
        refine ⟨p, ?_, ?_⟩
        · rw [List.find?_cons_of_pos]
          simp [hM]
        · rw [hstuck, hstep]
      · have hlt2 : (peakStep acc p).memory
            < (ps.foldl peakStep (peakStep acc p)).memory := by
          rcases lt_or_eq_of_le (peakFold_init_le ps (peakStep acc p)) with h2 | h2
          · exact h2
          · exfalso
            apply hM
            have h1 : (peakStep acc p).memory = testEntryMax p := by rw [hstep]
            rw [h1] at h2
            exact h2
        obtain ⟨q, hq1, hq2⟩ := ih (peakStep acc p) hlt2
        refine ⟨q, ?_, hq2⟩
        rw [List.find?_cons_of_neg]
        · exact hq1
        · simp [hM]
    · have hstep : peakStep acc p = acc := by rw [peakStep, if_neg hlt]
      rw [hstep] at h ⊢
      obtain ⟨q, hq1, hq2⟩ := ih acc h
      refine ⟨q, ?_, hq2⟩
      rw [List.find?_cons_of_neg]
      · exact hq1
      · have hle : testEntryMax p ≤ acc.memory := le_of_not_lt hlt
        have hne : testEntryMax p ≠ (ps.foldl peakStep acc).memory :=
          ne_of_lt (lt_of_le_of_lt hle h)
        simp [hne]

/-- C4 (amended): `findMaxMemoryTest` returns `("", 0)` exactly when every
per-test `calculateStats(samples).max` is ≤ 0 — in particular when the spec
has no tests, but also when tests exist whose rounded maxima are all 0 —
and whenever some per-test max is positive it returns the greatest per-test
max together with the title of the first test in insertion order achieving
it (ties keep the first). -/
theorem C4_peakTest :
    ∀ sd : SpecRecord,
      (findMaxMemoryTest sd = { testName := "", memory := 0 }
        ↔ ∀ p ∈ sd.tests, testEntryMax p ≤ 0)
      ∧ ((∃ p ∈ sd.tests, 0 < testEntryMax p) →
          (∀ p ∈ sd.tests, testEntryMax p ≤ (findMaxMemoryTest sd).memory)
          ∧ ∃ q, sd.tests.find?
                (fun p => decide (testEntryMax p = (findMaxMemoryTest sd).memory))
                = some q
              ∧ q.1 = (findMaxMemoryTest sd).testName) := by
  intro sd
  constructor
  · constructor
    · intro h p hp
      have hle := peakFold_entry_le sd.tests { testName := "", memory := 0 } p hp
      rw [findMaxMemoryTest] at h
      rw [h] at hle
      exact hle
    · intro h
      rw [findMaxMemoryTest]
      exact peakFold_id_of_le sd.tests _ (fun p hp => h p hp)
  · rintro ⟨p, hp, hpos⟩
    refine ⟨fun q hq => peakFold_entry_le sd.tests _ q hq, ?_⟩
    have hlt : ({ testName := "", memory := 0 } : PeakResult).memory
        < (sd.tests.foldl peakStep { testName := "", memory := 0 }).memory :=
      lt_of_lt_of_le hpos (peakFold_entry_le sd.tests _ p hp)
    exact peakFold_find sd.tests _ hlt

/-- A shorthand for well-formed concrete samples: a present timestamp and a
present `usedJSHeapSize` byte count. -/
def sampleBytes (ts bytes : Nat) : Sample :=
  { timestamp := some ts, usedJSHeapSize := some bytes,
    totalJSHeapSize := none, jsHeapSizeLimit := none }

/-- A spec with one test whose only sample has `usedJSHeapSize = 0`. -/
def zeroSpec : SpecRecord :=
  { samples := [], tests := [("t", { samples := [sampleBytes 1 0] })],
    startTime := none }

/-- C4 (counterexample): `zeroSpec` has a test, yet `findMaxMemoryTest`
returns `("", 0)` because the test's rounded max is `0` — refuting that
`("", 0)` is returned exactly when the spec has no tests. -/
theorem C4_counterexample :
    findMaxMemoryTest zeroSpec = { testName := "", memory := 0 }
    ∧ zeroSpec.tests ≠ [] := by
  with_unfolding_all decide

/-- A spec with two tests of equal positive maxima (1 MiB each). -/
def posSpec : SpecRecord :=
  { samples := [],
    tests := [ ("t1", { samples := [sampleBytes 1 1048576] })
             , ("t2", { samples := [sampleBytes 2 1048576] }) ],
    startTime := none }

/-- Witness for C4: on `posSpec` (a tie at 1 MiB) the peak is an upper bound
of all per-test maxima and the reported title is the first test achieving
it. -/
theorem C4_peakTest_witness :
    (∀ p ∈ posSpec.tests, testEntryMax p ≤ (findMaxMemoryTest posSpec).memory)
    ∧ ∃ q, posSpec.tests.find?
          (fun p => decide (testEntryMax p = (findMaxMemoryTest posSpec).memory))
          = some q
        ∧ q.1 = (findMaxMemoryTest posSpec).testName :=
  (C4_peakTest posSpec).2 (by with_unfolding_all decide)

/-- C5 (counterexample): `recordMemoryBatch` with an empty (well-formed)
batch and tracking enabled does call `loadData` — the claim that an empty
batch performs neither a load nor a save fails on the load side. -/
theorem C5_counterexample :
    (recordMemoryBatch { isEnabled := true, store := some emptyRun }
        { batch := some [] }).loads ≠ 0 := by
  decide

/-- C5 (amended): a malformed batch (`batch` not an array) performs neither
a load nor a save and leaves the snapshot unchanged; an empty batch
performs no save and leaves the snapshot unchanged, but does perform one
load when tracking is enabled. -/
theorem C5_batchGuard :
    ∀ t : Tracker,
      recordMemoryBatch t { batch := none }
          = { store := t.store, loads := 0, saves := 0 }
      ∧ recordMemoryBatch t { batch := some [] }
          = { store := t.store, loads := if t.isEnabled then 1 else 0, saves := 0 } := by
  intro t
  obtain ⟨e, st⟩ := t
  cases e
  · exact ⟨rfl, rfl⟩
  · cases st
    · exact ⟨rfl, rfl⟩
    · exact ⟨rfl, rfl⟩

/-- C6: when no snapshot is present (`loadData` returns the absent
sentinel), `recordSpecMemory`, `recordTestMemory` and `recordMemoryBatch`
are silent no-ops: they save nothing and no snapshot exists afterwards
(none is created implicitly); being total functions they raise nothing. -/
theorem C6_absentStore :
    ∀ (e : Bool) (specName testTitle : String) (m : Sample)
      (now now1 now2 : Nat) (iso : String) (bd : BatchData),
      ((recordSpecMemory { isEnabled := e, store := none } specName m now iso).store
          = none
        ∧ (recordSpecMemory { isEnabled := e, store := none } specName m now iso).saves
          = 0)
      ∧ ((recordTestMemory { isEnabled := e, store := none } specName testTitle m
            now1 now2 iso).store = none
        ∧ (recordTestMemory { isEnabled := e, store := none } specName testTitle m
            now1 now2 iso).saves = 0)
      ∧ ((recordMemoryBatch { isEnabled := e, store := none } bd).store = none
        ∧ (recordMemoryBatch { isEnabled := e, store := none } bd).saves = 0) := by
  intro e specName testTitle m now now1 now2 iso bd
  obtain ⟨ob⟩ := bd
  cases e <;> cases ob <;> exact ⟨⟨rfl, rfl⟩, ⟨rfl, rfl⟩, rfl, rfl⟩

theorem batchFold_pair : ∀ (items : List BatchItem) (d : RunData) (b : Bool),
    items.foldl (fun (acc : RunData × Bool) it => (applyBatchItem acc.1 it, true)) (d, b)
      = (items.foldl applyBatchItem d, b || !items.isEmpty) := by
  intro items
  induction items with
  | nil => intro d b; simp
  | cons it its ih =>
    intro d b
    rw [List.foldl_cons, List.foldl_cons, ih]
    simp

theorem lookup_tests_batchItem_isSome (d : RunData) (it : BatchItem) (k : String)
    (h : (d.tests.lookup k).isSome) :
    (((applyBatchItem d it).tests).lookup k).isSome := by
  cases hK : d.tests.lookup (testKeyOf it.specName it.testTitle) with
  | none =>
    simp only [applyBatchItem, hK]
    exact lookup_setKey_isSome _ _ _ _ h
  | some tr =>
    simp only [applyBatchItem, hK]
    exact lookup_setKey_isSome _ _ _ _ h

theorem applyBatchItem_eq_testMerge (d : RunData) (it : BatchItem)
    (n1 n2 : Nat) (iso : String)
    (hts : ∃ ts, it.memory.timestamp = some ts ∧ ts ≠ 0)
    (hkey : ((d.tests.lookup (testKeyOf it.specName it.testTitle)).isSome)) :
    applyBatchItem d it = testMerge d it.specName it.testTitle it.memory n1 n2 iso := by
  obtain ⟨ts, h1, h0⟩ := hts
  have hp1 := mkPushedSample_of_ts it.memory ts h1 h0 n1
  have hp2 := mkPushedSample_of_ts it.memory ts h1 h0 n2
  obtain ⟨tr, htr⟩ := Option.isSome_iff_exists.mp hkey
  simp [applyBatchItem, testMerge, htr, hp1, hp2]

theorem batchFold_eq_mergeFold : ∀ (items : List BatchItem) (d : RunData),
    (∀ it2 ∈ items, ∃ ts, it2.memory.timestamp = some ts ∧ ts ≠ 0) →
    (∀ it2 ∈ items, ((d.tests.lookup (testKeyOf it2.specName it2.testTitle)).isSome)) →
    ∀ (n1 n2 : Nat) (iso : String),
      items.foldl applyBatchItem d
        = items.foldl
            (fun d2 it2 => testMerge d2 it2.specName it2.testTitle it2.memory n1 n2 iso)
            d := by
  intro items
  induction items with
  | nil => intro d _ _ n1 n2 iso; rfl
  | cons it its ih =>
    intro d hts hkeys n1 n2 iso
    rw [List.foldl_cons, List.foldl_cons]
    rw [← applyBatchItem_eq_testMerge d it n1 n2 iso (hts it (List.mem_cons_self _ _))
          (hkeys it (List.mem_cons_self _ _))]
    exact ih (applyBatchItem d it)
      (fun it2 h2 => hts it2 (List.mem_cons_of_mem _ h2))
      (fun it2 h2 =>
        lookup_tests_batchItem_isSome d it _ (hkeys it2 (List.mem_cons_of_mem _ h2)))
      n1 n2 iso

/-- A batch item whose sample carries no timestamp. -/
def noTsItem : BatchItem :=
  { specName := "a", testTitle := "b",
    memory := { timestamp := none, usedJSHeapSize := some 1048576,
                totalJSHeapSize := none, jsHeapSizeLimit := none } }

/-- C7 (counterexample): on an empty snapshot, a one-item batch whose sample
has no timestamp does not produce the snapshot that the dual-write of
`recordTestMemory` produces (for the clock readings 0, 0 and creation time
"t0"): the batch path stores the raw sample without a defaulted timestamp
and creates the TestRecord without a `startTime`. -/
theorem C7_counterexample :
    (recordMemoryBatch { isEnabled := true, store := some emptyRun }
        { batch := some [noTsItem] }).store
      ≠ some (testMerge emptyRun "a" "b" noTsItem.memory 0 0 "t0") := by
  decide

/-- C7 (amended): for a nonempty well-formed batch on a present snapshot,
`recordMemoryBatch` loads once, saves once, and the resulting snapshot is
the fold of the per-item dual write over the batch in order; furthermore,
when every item's sample carries a nonzero timestamp and every item's test
key already exists in the snapshot, that fold coincides with folding
`recordTestMemory`'s merge over the items (in general the two differ:
the batch appends raw samples without timestamp defaulting and creates
TestRecords without a `startTime`). -/
theorem C7_batchRefinement :
    ∀ (d : RunData) (items : List BatchItem), items ≠ [] →
      recordMemoryBatch { isEnabled := true, store := some d } { batch := some items }
          = { store := some (items.foldl applyBatchItem d), loads := 1, saves := 1 }
      ∧ ((∀ it ∈ items, ∃ ts, it.memory.timestamp = some ts ∧ ts ≠ 0) →
         (∀ it ∈ items, ((d.tests.lookup (testKeyOf it.specName it.testTitle)).isSome)) →
         ∀ (n1 n2 : Nat) (iso : String),
           items.foldl applyBatchItem d
             = items.foldl
                 (fun d2 it2 => testMerge d2 it2.specName it2.testTitle it2.memory n1 n2 iso)
                 d) := by
  intro d items hne
  constructor
  · have hempty : items.isEmpty = false := by
      cases items with
      | nil => exact absurd rfl hne
      | cons _ _ => rfl
    simp only [recordMemoryBatch]
    rw [batchFold_pair]
    simp [hempty]
  · intro hts hkeys n1 n2 iso
    exact batchFold_eq_mergeFold items d hts hkeys n1 n2 iso

/-- A snapshot already holding the flat TestRecord for key `a::b`. -/
def keyedRun : RunData :=
  { specs := [],
    tests := [("a::b", { specPath := "a", testTitle := "b", samples := [],
                         startTime := none })] }

/-- Witness for C7: a concrete one-item batch (present timestamp, existing
test key) on `keyedRun`. -/
theorem C7_batchRefinement_witness :
    recordMemoryBatch { isEnabled := true, store := some keyedRun }
        { batch := some [witItem] }
      = { store := some ([witItem].foldl applyBatchItem keyedRun),
          loads := 1, saves := 1 }
    ∧ [witItem].foldl applyBatchItem keyedRun
        = [witItem].foldl
            (fun d2 it2 => testMerge d2 it2.specName it2.testTitle it2.memory 3 4 "z")
            keyedRun :=
  ⟨(C7_batchRefinement keyedRun [witItem] (by decide)).1,
   (C7_batchRefinement keyedRun [witItem] (by decide)).2
     (by
       intro it h
       rw [List.mem_singleton] at h
       subst h
       exact ⟨5, rfl, by decide⟩)
     (by decide) 3 4 "z"⟩

theorem sortByKeyDesc_perm {α : Type} (key : α → ℚ) (l : List α) :
    (sortByKeyDesc key l).Perm l :=
  List.perm_insertionSort _ l

theorem sortByKeyDesc_pairwise {α : Type} (key : α → ℚ) (l : List α) :
    List.Pairwise (fun a b => key b ≤ key a) (sortByKeyDesc key l) := by
  haveI h1 : IsTotal α (fun a b => key b ≤ key a) := ⟨fun a b => le_total (key b) (key a)⟩
  haveI h2 : IsTrans α (fun a b => key b ≤ key a) :=
    ⟨fun a b c hab hbc => le_trans hbc hab⟩
  exact List.sorted_insertionSort _ l

theorem sortByKeyDesc_filter {α : Type} (key : α → ℚ) (l : List α) (c : ℚ) :
    (sortByKeyDesc key l).filter (fun a => decide (key a = c))
      = l.filter (fun a => decide (key a = c)) := by
  have hpair : (l.filter (fun a => decide (key a = c))).Pairwise
      (fun a b => key b ≤ key a) := by
    apply List.pairwise_of_forall_mem_list
    intro a ha b hb
    have hka : key a = c := by simpa using (List.mem_filter.mp ha).2
    have hkb : key b = c := by simpa using (List.mem_filter.mp hb).2
    rw [hka, hkb]
  have hsub : (l.filter (fun a => decide (key a = c))).Sublist (sortByKeyDesc key l) :=
    List.sublist_insertionSort hpair (List.filter_sublist l)
  have hsub2 := List.Sublist.filter (fun a => decide (key a = c)) hsub
  have hidem : ((l.filter (fun a => decide (key a = c))).filter
        (fun a => decide (key a = c)))
      = l.filter (fun a => decide (key a = c)) :=
    List.filter_eq_self.mpr (fun a ha => (List.mem_filter.mp ha).2)
  rw [hidem] at hsub2
  have hperm : ((sortByKeyDesc key l).filter (fun a => decide (key a = c))).Perm
      (l.filter (fun a => decide (key a = c))) :=
    (sortByKeyDesc_perm key l).filter _
  exact (hsub2.eq_of_length hperm.length_eq.symm).symm

/-- C8: the test report renders one row per test across all specs, sorted
descending by the test's `calculateStats(samples).max` (the sorted list is a
permutation of all tests), emits exactly the first 50 of the sorted rows
(so at most 50, all dominating the omitted ones), and appends the trailing
"... and N more tests" line exactly when the total exceeds 50, with
N = total − 50. -/
theorem C8_testReport :
    ∀ tests : List (String × TestRecord),
      (sortByKeyDesc testRowKey (tests.map (fun p => p.2))).Perm
          (tests.map (fun p => p.2))
      ∧ List.Pairwise (fun a b => testRowKey b ≤ testRowKey a)
          (sortByKeyDesc testRowKey (tests.map (fun p => p.2)))
      ∧ generateTestReportRows tests
          = (sortByKeyDesc testRowKey (tests.map (fun p => p.2))).take 50
      ∧ (generateTestReportRows tests).length = min tests.length 50
      ∧ generateTestReportOmitted tests
          = (if 50 < tests.length then some (tests.length - 50) else none) := by
  intro tests
  refine ⟨sortByKeyDesc_perm _ _, sortByKeyDesc_pairwise _ _, rfl, ?_, rfl⟩
  rw [generateTestReportRows, List.length_take,
    (sortByKeyDesc_perm testRowKey (tests.map (fun p => p.2))).length_eq,
    List.length_map]
  exact min_comm _ _

/-- The three specs with aggregate maxima 5, 1 and 3 MiB, in that
insertion order. -/
def threeSpecs : List (String × SpecRecord) :=
  [ ("a", { samples := [sampleBytes 1 5242880], tests := [], startTime := none })
  , ("b", { samples := [sampleBytes 1 1048576], tests := [], startTime := none })
  , ("c", { samples := [sampleBytes 1 3145728], tests := [], startTime := none }) ]

/-- C9: the spec report's rows are a permutation of the specs sorted
descending by `aggregateSpecStats(...).max`, ties keep the original
map-iteration (insertion) order (the rows with any fixed key value appear
exactly in their input order), and specs with maxima `[5, 1, 3]` MiB are
listed in the order `5, 3, 1`. -/
theorem C9_specReportOrder :
    (∀ specs : List (String × SpecRecord),
      (generateSpecReportRows specs).Perm specs
      ∧ List.Pairwise (fun a b => specRowKey b ≤ specRowKey a)
          (generateSpecReportRows specs)
      ∧ ∀ c : ℚ,
          (generateSpecReportRows specs).filter (fun p => decide (specRowKey p = c))
            = specs.filter (fun p => decide (specRowKey p = c)))
    ∧ (generateSpecReportRows threeSpecs).map (fun p => p.1) = ["a", "c", "b"] := by
  constructor
  · intro specs
    exact ⟨sortByKeyDesc_perm _ _, sortByKeyDesc_pairwise _ _,
      fun c => sortByKeyDesc_filter _ _ c⟩
  · with_unfolding_all decide

/-- Witness for C2: the general characterization instantiated on the
1/2/3-MiB sample list. -/
theorem C2_statsOf_witness :
    ∃ m M : Nat,
      m ∈ mibSamples123.filterMap Sample.usedJSHeapSize ∧
      M ∈ mibSamples123.filterMap Sample.usedJSHeapSize ∧
      (∀ v ∈ mibSamples123.filterMap Sample.usedJSHeapSize, m ≤ v ∧ v ≤ M) ∧
      calculateStats (some mibSamples123) =
        { min := round2MiB (m : ℚ)
          max := round2MiB (M : ℚ)
          avg := round2MiB
            (((mibSamples123.filterMap Sample.usedJSHeapSize).sum : ℚ)
              / (mibSamples123.length : ℚ))
          count := mibSamples123.length } :=
  C2_statsOf.2.1 mibSamples123 (by decide) (by decide)

/-- A single sample with every field absent. -/
def absentSample : Sample :=
  { timestamp := none, usedJSHeapSize := none,
    totalJSHeapSize := none, jsHeapSizeLimit := none }

/-- Witness for C10: a one-element list whose sample has no
`usedJSHeapSize`. -/
theorem C10_zeroSubstitution_witness :
    (calculateStats (some [absentSample])).min = 0
    ∧ (calculateStats (some [absentSample])).count = [absentSample].length
    ∧ (calculateStats (some [absentSample])).avg
        = round2MiB ((([absentSample].map usedOrZero).sum : ℚ)
            / (([absentSample].length : Nat) : ℚ)) :=
  C10_zeroSubstitution [absentSample] (by decide) (by decide)
